import Mathlib

/-!
Verification of the small-language interpreter (tokenizer, recursive-descent
parser, tree-walking evaluator with reference-counted integer sequences).

The development is a shallow embedding of the C sources:
  - parse.c     : parseToken (tokenizer), parseTerm / parseExpr / parseStmt
  - value.c     : Sequence (ref-counted), Environment (lookupVariable, setVariable)
  - syntax.c    : the eval functions of the expression variants and the
                  execute functions of the statement variants
  - interpret.c : the driver loop

Modelling conventions:
  - characters are Lean Char with ASCII classification functions mirroring
    ctype.h under the C locale;
  - the byte stream is a List Char; ungetc is modelled by returning the
    pushed-back character at the head of the remaining list;
  - machine ints are unbounded Int (the programs in the theorems stay far
    from 2^31, where C overflow would be undefined anyway);
  - the heap is a list of sequence cells addressed by index; a Value is the
    C tagged union: a tag plus one integer payload, which holds the integer
    for IntType and the cell address for SeqType.  Reading the wrong union
    member (which the C source does in evalMul for Seq * Seq and in
    executeAssignment for a sequence right-hand side) therefore yields the
    cell address as an integer, deterministically standing in for the
    C pointer-bits reinterpretation;
  - freeSequence is modelled by marking the cell dead and counting how often
    it was freed, so leak and double-free properties are stated on the final
    heap;
  - exits with a diagnostic become the error values of Except; a normal
    run-to-completion (exit status 0) is the .ok result;
  - recursion in the parser and in statement execution is bounded by an
    explicit fuel parameter; exhausting fuel is a distinguished error that
    no theorem below confuses with a diagnostic of the program.
-/

namespace CLang

/-- ASCII isspace under the C locale (space, tab, newline, vertical tab,
form feed, carriage return). -/
def isSpaceC (c : Char) : Bool :=
  c = ' ' || c = '\t' || c = '\n' || c = Char.ofNat 11 || c = Char.ofNat 12 || c = Char.ofNat 13

/-- ASCII isdigit. -/
def isDigitC (c : Char) : Bool :=
  '0' ≤ c && c ≤ '9'

/-- ASCII isalpha under the C locale. -/
def isAlphaC (c : Char) : Bool :=
  ('A' ≤ c && c ≤ 'Z') || ('a' ≤ c && c ≤ 'z')

/-- ASCII isalnum under the C locale. -/
def isAlnumC (c : Char) : Bool :=
  isAlphaC c || isDigitC c

/-- The single-quote character (written numerically to keep the source plain). -/
def squote : Char := Char.ofNat 39

/-- The backslash character. -/
def bslash : Char := Char.ofNat 92

/-- MAX_TOKEN from parse.h. -/
def maxToken : Nat := 1023

/-- MAX_VAR_NAME from value.h. -/
def maxVarName : Nat := 20

/-- INIT_CAP from value.h. -/
def initCap : Nat := 5

/-- Tokens are byte strings; we keep them as character lists. -/
abbrev Tok := List Char

/-- Every fatal outcome of the interpreter: the lexical and syntax
diagnostics of parse.c (each carrying the line counter), the runtime
diagnostics of syntax.c, the assert in releaseSequence, and fuel
exhaustion of the embedding (never a behaviour of the C program). -/
inductive Err where
  | tokenTooLong (line : Nat)
  | invalidStringLit (line : Nat)
  | invalidEscape (line : Nat) (c : Char)
  | invalidSingleQuote (line : Nat)
  | syntaxErr (line : Nat)
  | typeMismatch
  | divideByZero
  | indexOutOfBounds
  | assertFail
  | fuelOut
  deriving DecidableEq, Repr

/-- The tokenizer state: the unread characters and the 1-based line counter
(the static lineCount of parse.c).  ungetc pushes a character back onto
the front of chars. -/
structure PStream where
  chars : List Char
  line : Nat
  deriving DecidableEq, Repr

/-- Whitespace-and-comment skipping of parseToken.  The Bool flag is true
while inside a # comment.  Returns the first significant character with the
rest of the stream, or none at end of input, together with the updated
line counter. -/
def skipWS : List Char → Bool → Nat → Option (Char × List Char) × Nat
  | [], _, line => (none, line)
  | c :: r, true, line =>
    if c = '\n' then skipWS r false (line + 1) else skipWS r true line
  | c :: r, false, line =>
    if isSpaceC c then skipWS r false (if c = '\n' then line + 1 else line)
    else if c = '#' then skipWS r true line
    else (some (c, r), line)

/-- addToToken of parse.c: append a character to the token being built,
erroring out when the token is already MAX_TOKEN characters long. -/
def addToToken (line : Nat) (acc : Tok) (c : Char) : Except Err Tok :=
  if maxToken ≤ acc.length then .error (.tokenTooLong line) else .ok (acc ++ [c])

/-- The identifier / integer continuation loop of parseToken: keep reading
characters satisfying p, then put the first non-matching character back. -/
def readWhile (p : Char → Bool) (line : Nat) : Tok → List Char → Except Err (Tok × List Char)
  | acc, [] => .ok (acc, [])
  | acc, c :: r =>
    if p c then
      match addToToken line acc c with
      | .error e => .error e
      | .ok acc2 => readWhile p line acc2 r
    else .ok (acc, c :: r)

/-- The string-literal loop of parseToken: read until the closing quote,
handling the escape sequences backslash-n, backslash-t, backslash-quote and
double backslash, and rejecting newline or end of input inside the literal. -/
def readString (q : Char) (line : Nat) : Bool → Tok → List Char → Except Err (Tok × List Char)
  | _, _, [] => .error (.invalidStringLit line)
  | escape, acc, c :: r =>
    if c = q && !escape then
      match addToToken line acc q with
      | .error e => .error e
      | .ok acc2 => .ok (acc2, r)
    else if c = '\n' then .error (.invalidStringLit line)
    else if !escape && c = bslash then readString q line true acc r
    else if escape then
      let mapped : Except Err Char :=
        if c = 'n' then .ok '\n'
        else if c = 't' then .ok '\t'
        else if c = '"' then .ok '"'
        else if c = bslash then .ok bslash
        else .error (.invalidEscape line c)
      match mapped with
      | .error e => .error e
      | .ok c2 =>
        match addToToken line acc c2 with
        | .error e => .error e
        | .ok acc2 => readString q line false acc2 r
    else
      match addToToken line acc c with
      | .error e => .error e
      | .ok acc2 => readString q line false acc2 r

/-- Result of parseToken: end of input (with the line counter at that
point), or a token and the stream that follows it. -/
inductive TokRes where
  | eof (line : Nat)
  | tok (t : Tok) (ps : PStream)
  deriving DecidableEq, Repr

/-- parseToken of parse.c.  Skips whitespace and comments, then reads one
token: an identifier, an integer literal (a leading minus sign followed by
digits is one token), a quoted string, one of the two-character operators
==, && and ||, or a single character. -/
def parseToken (ps : PStream) : Except Err TokRes :=
  match skipWS ps.chars false ps.line with
  | (none, line) => .ok (.eof line)
  | (some (c, r), line) =>
    if isAlphaC c || c = '_' then
      match readWhile (fun d => isAlnumC d || d = '_') line [c] r with
      | .error e => .error e
      | .ok (t, r2) => .ok (.tok t ⟨r2, line⟩)
    else if c = '-' || isDigitC c then
      match readWhile isDigitC line [c] r with
      | .error e => .error e
      | .ok (t, r2) => .ok (.tok t ⟨r2, line⟩)
    else if c = '"' || c = squote then
      match readString c line false [c] r with
      | .error e => .error e
      | .ok (t, r2) =>
        if c = squote && t.length ≠ 3 then .error (.invalidSingleQuote line)
        else .ok (.tok t ⟨r2, line⟩)
    else
      match r with
      | [] => .ok (.tok [c] ⟨[], line⟩)
      | c2 :: r2 =>
        if (c = '=' && c2 = '=') || (c = '&' && c2 = '&') || (c = '|' && c2 = '|') then
          .ok (.tok [c, c2] ⟨r2, line⟩)
        else .ok (.tok [c] ⟨c2 :: r2, line⟩)

/-- Expression AST (syntax.h): the subclass-by-function-pointer records of
the C source become a closed sum.  Names follow the make functions of
syntax.c. -/
inductive Expr where
  | lit (v : Int)
  | var (name : Tok)
  | add (a b : Expr)
  | sub (a b : Expr)
  | mul (a b : Expr)
  | div (a b : Expr)
  | andE (a b : Expr)
  | orE (a b : Expr)
  | less (a b : Expr)
  | eq (a b : Expr)
  | index (a i : Expr)
  | lenE (a : Expr)
  | seqInit (elems : List Expr)
  deriving Repr

/-- Statement AST (syntax.h). -/
inductive Stmt where
  | print (e : Expr)
  | compound (l : List Stmt)
  | ifS (c : Expr) (b : Stmt)
  | whileS (c : Expr) (b : Stmt)
  | push (s v : Expr) : Stmt
  | assign (name : Tok) (idx : Option Expr) (rhs : Expr)
  deriving Repr

/-- isIdentifier of parse.c: letter or underscore, then letters, digits and
underscores, at most MAX_VAR_NAME characters, and not a reserved word. -/
def isIdentifier (t : Tok) : Bool :=
  match t with
  | [] => false
  | c :: rest =>
    (isAlphaC c || c = '_') &&
    rest.all (fun d => isAlnumC d || d = '_') &&
    decide (t.length ≤ maxVarName) &&
    !(t = "if".toList || t = "while".toList || t = "print".toList ||
      t = "push".toList || t = "len".toList)

/-- isInfixOperator of parse.c. -/
def isInfixOperator (t : Tok) : Bool :=
  t = ['+'] || t = ['-'] || t = ['*'] || t = ['/'] || t = ['<'] ||
  t = ['=', '='] || t = ['&', '&'] || t = ['|', '|'] || t = ['[']

/-- Decimal value of a digit list (what sscanf with a d conversion computes
for the digits of a token). -/
def digitsToNat (ds : List Char) : Nat :=
  ds.foldl (fun acc d => 10 * acc + (d.toNat - '0'.toNat)) 0

/-- The integer-literal parse of parseTerm: sscanf with d then n succeeds
with the whole token consumed exactly when the token is an optional minus
sign followed by at least one digit. -/
def parseIntTok (t : Tok) : Option Int :=
  match t with
  | '-' :: ds =>
    if ds ≠ [] && ds.all isDigitC then some (-(digitsToNat ds : Int)) else none
  | ds =>
    if ds ≠ [] && ds.all isDigitC then some ((digitsToNat ds : Int)) else none

/-- expectToken of parse.c: the next token must exist. -/
def expectTok (ps : PStream) : Except Err (Tok × PStream) :=
  match parseToken ps with
  | .error e => .error e
  | .ok (.eof line) => .error (.syntaxErr line)
  | .ok (.tok t ps2) => .ok (t, ps2)

/-- requireToken of parse.c: the next token must equal the target. -/
def requireTok (target : Tok) (ps : PStream) : Except Err PStream :=
  match expectTok ps with
  | .error e => .error e
  | .ok (t, ps2) => if t = target then .ok ps2 else .error (.syntaxErr ps2.line)

/-- ungetc of the terminator in parseExpr: the first character of the token
is pushed back onto the stream (all legal terminators are one character). -/
def ungetcTok (t : Tok) (ps : PStream) : PStream :=
  match t with
  | [] => ps
  | c :: _ => ⟨c :: ps.chars, ps.line⟩

mutual

/-- parseTerm of parse.c, with the token already read.  The branches appear
in the order of the C source: parenthesised expression, integer literal,
character literal, identifier, bracketed sequence literal, len, string
literal (lowered to a sequence initializer of byte values). -/
def parseTerm : Nat → Tok → PStream → Except Err (Expr × PStream)
  | 0, _, _ => .error .fuelOut
  | fuel + 1, t, ps =>
    if t = ['('] then
      match expectTok ps with
      | .error e => .error e
      | .ok (t2, ps2) =>
        match parseExpr fuel t2 ps2 with
        | .error e => .error e
        | .ok (e, ps3) =>
          match requireTok [')'] ps3 with
          | .error e => .error e
          | .ok ps4 => .ok (e, ps4)
    else if t.headD ' ' = '-' || isDigitC (t.headD ' ') then
      match parseIntTok t with
      | none => .error (.syntaxErr ps.line)
      | some v => .ok (.lit v, ps)
    else if t.headD ' ' = squote then
      .ok (.lit ((t.getD 1 (Char.ofNat 0)).toNat : Int), ps)
    else if isIdentifier t then
      .ok (.var t, ps)
    else if t.headD ' ' = '[' then
      match expectTok ps with
      | .error e => .error e
      | .ok (t2, ps2) => seqLitLoop fuel [] t2 ps2
    else if t = "len".toList then
      match expectTok ps with
      | .error e => .error e
      | .ok (t2, ps2) =>
        match parseExpr fuel t2 ps2 with
        | .error e => .error e
        | .ok (e, ps3) => .ok (.lenE e, ps3)
    else if t.headD ' ' = '"' then
      let body := (t.drop 1).takeWhile (fun c => c ≠ '"')
      .ok (.seqInit (body.map (fun c => .lit (c.toNat : Int))), ps)
    else .error (.syntaxErr ps.line)

/-- The bracketed sequence-literal loop in parseTerm: elements separated by
commas, closed by a bracket; the loop guard also stops silently once more
than MAX_TOKEN elements were collected, exactly as in the C source. -/
def seqLitLoop : Nat → List Expr → Tok → PStream → Except Err (Expr × PStream)
  | 0, _, _, _ => .error .fuelOut
  | fuel + 1, acc, cur, ps =>
    if maxToken < acc.length then .ok (.seqInit acc, ps)
    else if cur = [']'] then .ok (.seqInit acc, ps)
    else
      match parseExpr fuel cur ps with
      | .error e => .error e
      | .ok (e, ps2) =>
        match expectTok ps2 with
        | .error e => .error e
        | .ok (t2, ps3) =>
          if t2 ≠ [']'] && t2 ≠ [','] then .error (.syntaxErr ps3.line)
          else if t2 ≠ [']'] then
            match expectTok ps3 with
            | .error e => .error e
            | .ok (t3, ps4) => seqLitLoop fuel (acc ++ [e]) t3 ps4
          else seqLitLoop fuel (acc ++ [e]) t2 ps3

/-- parseExpr of parse.c: one term, then the flat left-associative operator
loop. -/
def parseExpr : Nat → Tok → PStream → Except Err (Expr × PStream)
  | 0, _, _ => .error .fuelOut
  | fuel + 1, t, ps =>
    match parseTerm fuel t ps with
    | .error e => .error e
    | .ok (left, ps2) => parseExprLoop fuel left ps2

/-- The operator loop of parseExpr: while the next token is an infix
operator, parse the right-hand term and combine; at the first non-operator
token, accept only a semicolon, closing parenthesis, closing bracket or
comma, and push its character back for the caller. -/
def parseExprLoop : Nat → Expr → PStream → Except Err (Expr × PStream)
  | 0, _, _ => .error .fuelOut
  | fuel + 1, left, ps =>
    match expectTok ps with
    | .error e => .error e
    | .ok (op, ps2) =>
      if isInfixOperator op then
        match expectTok ps2 with
        | .error e => .error e
        | .ok (t2, ps3) =>
          match parseTerm fuel t2 ps3 with
          | .error e => .error e
          | .ok (right, ps4) =>
            if op = ['+'] then parseExprLoop fuel (.add left right) ps4
            else if op = ['-'] then parseExprLoop fuel (.sub left right) ps4
            else if op = ['*'] then parseExprLoop fuel (.mul left right) ps4
            else if op = ['/'] then parseExprLoop fuel (.div left right) ps4
            else if op = ['&', '&'] then parseExprLoop fuel (.andE left right) ps4
            else if op = ['|', '|'] then parseExprLoop fuel (.orE left right) ps4
            else if op = ['<'] then parseExprLoop fuel (.less left right) ps4
            else if op = ['=', '='] then parseExprLoop fuel (.eq left right) ps4
            else if op = ['['] then
              match requireTok [']'] ps4 with
              | .error e => .error e
              | .ok ps5 => parseExprLoop fuel (.index left right) ps5
            else parseExprLoop fuel left ps4
      else
        if op ≠ [';'] && op ≠ [')'] && op ≠ [']'] && op ≠ [','] then
          .error (.syntaxErr ps2.line)
        else .ok (left, ungetcTok op ps2)

end

mutual

/-- parseStmt of parse.c, with the leading token already read. -/
def parseStmt : Nat → Tok → PStream → Except Err (Stmt × PStream)
  | 0, _, _ => .error .fuelOut
  | fuel + 1, t, ps =>
    if t = ['\x7b'] then
      match expectTok ps with
      | .error e => .error e
      | .ok (t2, ps2) => parseStmtList fuel [] t2 ps2
    else if t = "print".toList then
      match expectTok ps with
      | .error e => .error e
      | .ok (t2, ps2) =>
        match parseExpr fuel t2 ps2 with
        | .error e => .error e
        | .ok (e, ps3) =>
          match requireTok [';'] ps3 with
          | .error e => .error e
          | .ok ps4 => .ok (.print e, ps4)
    else if t = "if".toList then
      match requireTok ['('] ps with
      | .error e => .error e
      | .ok ps1 =>
        match expectTok ps1 with
        | .error e => .error e
        | .ok (t2, ps2) =>
          match parseExpr fuel t2 ps2 with
          | .error e => .error e
          | .ok (c, ps3) =>
            match requireTok [')'] ps3 with
            | .error e => .error e
            | .ok ps4 =>
              match expectTok ps4 with
              | .error e => .error e
              | .ok (t3, ps5) =>
                match parseStmt fuel t3 ps5 with
                | .error e => .error e
                | .ok (b, ps6) => .ok (.ifS c b, ps6)
    else if t = "while".toList then
      match requireTok ['('] ps with
      | .error e => .error e
      | .ok ps1 =>
        match expectTok ps1 with
        | .error e => .error e
        | .ok (t2, ps2) =>
          match parseExpr fuel t2 ps2 with
          | .error e => .error e
          | .ok (c, ps3) =>
            match requireTok [')'] ps3 with
            | .error e => .error e
            | .ok ps4 =>
              match expectTok ps4 with
              | .error e => .error e
              | .ok (t3, ps5) =>
                match parseStmt fuel t3 ps5 with
                | .error e => .error e
                | .ok (b, ps6) => .ok (.whileS c b, ps6)
    else if t = "push".toList then
      match expectTok ps with
      | .error e => .error e
      | .ok (t2, ps2) =>
        match parseExpr fuel t2 ps2 with
        | .error e => .error e
        | .ok (se, ps3) =>
          match requireTok [','] ps3 with
          | .error e => .error e
          | .ok ps4 =>
            match expectTok ps4 with
            | .error e => .error e
            | .ok (t3, ps5) =>
              match parseExpr fuel t3 ps5 with
              | .error e => .error e
              | .ok (ve, ps6) =>
                match requireTok [';'] ps6 with
                | .error e => .error e
                | .ok ps7 => .ok (.push se ve, ps7)
    else if isIdentifier t then
      match expectTok ps with
      | .error e => .error e
      | .ok (t2, ps2) =>
        if t2 = ['['] then
          match expectTok ps2 with
          | .error e => .error e
          | .ok (t3, ps3) =>
            match parseExpr fuel t3 ps3 with
            | .error e => .error e
            | .ok (ie, ps4) =>
              match requireTok [']'] ps4 with
              | .error e => .error e
              | .ok ps5 =>
                match requireTok ['='] ps5 with
                | .error e => .error e
                | .ok ps6 =>
                  match expectTok ps6 with
                  | .error e => .error e
                  | .ok (t4, ps7) =>
                    match parseExpr fuel t4 ps7 with
                    | .error e => .error e
                    | .ok (rhs, ps8) =>
                      match requireTok [';'] ps8 with
                      | .error e => .error e
                      | .ok ps9 => .ok (.assign t (some ie) rhs, ps9)
        else if t2 = ['='] then
          match expectTok ps2 with
          | .error e => .error e
          | .ok (t3, ps3) =>
            match parseExpr fuel t3 ps3 with
            | .error e => .error e
            | .ok (rhs, ps4) =>
              match requireTok [';'] ps4 with
              | .error e => .error e
              | .ok ps5 => .ok (.assign t none rhs, ps5)
        else .error (.syntaxErr ps2.line)
    else .error (.syntaxErr ps.line)

/-- The compound-statement loop of parseStmt: statements until the closing
curly bracket. -/
def parseStmtList : Nat → List Stmt → Tok → PStream → Except Err (Stmt × PStream)
  | 0, _, _, _ => .error .fuelOut
  | fuel + 1, acc, cur, ps =>
    if cur = ['\x7d'] then .ok (.compound acc, ps)
    else
      match parseStmt fuel cur ps with
      | .error e => .error e
      | .ok (s, ps2) =>
        match expectTok ps2 with
        | .error e => .error e
        | .ok (t2, ps3) => parseStmtList fuel (acc ++ [s]) t2 ps3

end

/-- ValType of value.h. -/
inductive ValType where
  | IntType
  | SeqType
  deriving DecidableEq, Repr

/-- Value of value.h: the tag and the union storage.  payload is ival for
IntType values and the cell address (sval) for SeqType values; reading the
other member of the union reads the same storage. -/
structure Value where
  vtype : ValType
  payload : Int
  deriving DecidableEq, Repr

/-- Reading the ival member of the union. -/
def Value.ival (v : Value) : Int := v.payload

/-- Reading the sval member of the union, as a heap address. -/
def Value.sval (v : Value) : Nat := v.payload.toNat

/-- An int value. -/
def mkIntV (i : Int) : Value := ⟨.IntType, i⟩

/-- A sequence value holding the address of a heap cell. -/
def mkSeqV (p : Nat) : Value := ⟨.SeqType, (p : Nat)⟩

/-- One heap-allocated Sequence of value.c, extended with bookkeeping that
the C heap has implicitly: alive is false once freeSequence ran, and freed
counts how many times freeSequence ran on this cell. -/
structure Cell where
  data : List Int
  cap : Nat
  ref : Int
  alive : Bool
  freed : Nat
  deriving DecidableEq, Repr

/-- The placeholder returned when reading a heap index that was never
allocated (the C program would have undefined behaviour there; no theorem
below depends on this default). -/
def cellD : Cell := ⟨[], 0, 0, false, 0⟩

/-- The heap: cell number p of the C program is entry p of the list. -/
abbrev Heap := List Cell

/-- Read a heap cell. -/
def cellAt (h : Heap) (p : Nat) : Cell := h.getD p cellD

/-- Update a heap cell in place. -/
def hmod (h : Heap) (p : Nat) (f : Cell → Cell) : Heap := h.set p (f (cellAt h p))

/-- makeSequence of value.c: a fresh empty sequence with capacity INIT_CAP
and reference count 0; its address is the current heap length. -/
def freshCell : Cell := ⟨[], initCap, 0, true, 0⟩

/-- grabSequence of value.c. -/
def grabSeq (h : Heap) (p : Nat) : Heap := hmod h p (fun c => { c with ref := c.ref + 1 })

/-- releaseSequence of value.c: decrement the reference count; at zero the
cell is freed; the assert fires if the count went negative. -/
def releaseSeq (h : Heap) (p : Nat) : Except Err Heap :=
  let c := cellAt h p
  let r := c.ref - 1
  if r ≤ 0 then
    if r = 0 then
      .ok (h.set p { c with ref := r, alive := false, freed := c.freed + 1 })
    else .error .assertFail
  else .ok (h.set p { c with ref := r })

/-- The append step shared by every sequence-growing loop of the C source:
double the capacity when the length has reached it, then store at the
index equal to the current length and bump the length. -/
def seqPushCell (c : Cell) (x : Int) : Cell :=
  let c2 := if c.cap ≤ c.data.length then { c with cap := c.cap * 2 } else c
  { c2 with data := c2.data ++ [x] }

/-- Append a whole list element by element. -/
def pushElems (c : Cell) (xs : List Int) : Cell := xs.foldl seqPushCell c

/-- Append the list n times (the repetition loop of evalMul). -/
def repPush : Nat → Cell → List Int → Cell
  | 0, c, _ => c
  | n + 1, c, xs => repPush n (pushElems c xs) xs

/-- The environment: name/value records in insertion order (the vlist of
value.c). -/
abbrev Env := List (Tok × Value)

/-- lookupVariable of value.c: linear scan; unknown names yield the int 0,
never an error. -/
def lookupVariable : Env → Tok → Value
  | [], _ => mkIntV 0
  | (n, v) :: r, name => if n = name then v else lookupVariable r name

/-- setVariable of value.c: overwrite the existing slot for the name,
releasing an overwritten sequence value, or append a new slot. -/
def setVariable : Env → Tok → Value → Heap → Except Err (Env × Heap)
  | [], name, v, h => .ok ([(name, v)], h)
  | (n, old) :: r, name, v, h =>
    if n = name then
      if old.vtype = .SeqType then
        match releaseSeq h old.sval with
        | .error e => .error e
        | .ok h2 => .ok ((n, v) :: r, h2)
      else .ok ((n, v) :: r, h)
    else
      match setVariable r name v h with
      | .error e => .error e
      | .ok (r2, h2) => .ok ((n, old) :: r2, h2)

/-- freeEnvironment of value.c: release every sequence slot. -/
def freeEnvironment : Env → Heap → Except Err Heap
  | [], h => .ok h
  | (_, v) :: r, h =>
    if v.vtype = .SeqType then
      match releaseSeq h v.sval with
      | .error e => .error e
      | .ok h2 => freeEnvironment r h2
    else freeEnvironment r h

/-- The interpreter state: heap, environment and the standard-output text
produced so far. -/
structure State where
  heap : Heap
  env : Env
  out : List Char
  deriving DecidableEq, Repr

/-- requireIntType of syntax.c. -/
def requireIntType (v : Value) : Except Err Unit :=
  if v.vtype ≠ .IntType then .error .typeMismatch else .ok ()

/-- requireSeqType of syntax.c. -/
def requireSeqType (v : Value) : Except Err Unit :=
  if v.vtype ≠ .SeqType then .error .typeMismatch else .ok ()

/-- The body of evalAdd of syntax.c after both operands are evaluated.
Branch order as in the source: both ints; both sequences (grab both, build
a fresh sequence from the left elements then the right elements, releasing
each operand after it is copied); sequence plus int; int plus sequence;
an unreachable fallback returning int 0. -/
def evalAddVals (v1 v2 : Value) (st : State) : Except Err (Value × State) :=
  if v1.vtype = .IntType && v2.vtype = .IntType then
    .ok (mkIntV (v1.ival + v2.ival), st)
  else if v1.vtype = v2.vtype then
    let p1 := v1.sval
    let p2 := v2.sval
    let h0 := grabSeq (grabSeq st.heap p1) p2
    let r := h0.length
    let h1 := h0 ++ [freshCell]
    let d1 := (cellAt h1 p1).data
    let h2 := hmod h1 r (fun c => pushElems c d1)
    match releaseSeq h2 p1 with
    | .error e => .error e
    | .ok h3 =>
      let d2 := (cellAt h3 p2).data
      let h4 := hmod h3 r (fun c => pushElems c d2)
      match releaseSeq h4 p2 with
      | .error e => .error e
      | .ok h5 => .ok (mkSeqV r, { st with heap := h5 })
  else if v1.vtype = .SeqType then
    let p1 := v1.sval
    let h0 := grabSeq st.heap p1
    let r := h0.length
    let h1 := h0 ++ [freshCell]
    let d1 := (cellAt h1 p1).data
    let h2 := hmod h1 r (fun c => seqPushCell (pushElems c d1) v2.ival)
    match releaseSeq h2 p1 with
    | .error e => .error e
    | .ok h3 => .ok (mkSeqV r, { st with heap := h3 })
  else if v2.vtype = .SeqType then
    let p2 := v2.sval
    let h0 := grabSeq st.heap p2
    let r := h0.length
    let h1 := h0 ++ [freshCell]
    let d2 := (cellAt h1 p2).data
    let h2 := hmod h1 r (fun c => pushElems { c with data := c.data ++ [v1.ival] } d2)
    match releaseSeq h2 p2 with
    | .error e => .error e
    | .ok h3 => .ok (mkSeqV r, { st with heap := h3 })
  else .ok (mkIntV 0, st)

/-- The body of evalMul of syntax.c after both operands are evaluated.
Branch order as in the source: left operand a sequence (the right operand's
ival union member — for a sequence operand, its address — is the repetition
count); right operand a sequence; the unreachable both-sequences type
mismatch; then the int requirements and the product. -/
def evalMulVals (v1 v2 : Value) (st : State) : Except Err (Value × State) :=
  if v1.vtype = .SeqType then
    let p := v1.sval
    let h0 := grabSeq st.heap p
    let r := h0.length
    let h1 := h0 ++ [freshCell]
    let times := v2.ival
    let d := (cellAt h1 p).data
    let h2 := hmod h1 r (fun c => repPush times.toNat c d)
    match releaseSeq h2 p with
    | .error e => .error e
    | .ok h3 => .ok (mkSeqV r, { st with heap := h3 })
  else if v2.vtype = .SeqType then
    let p := v2.sval
    let h0 := grabSeq st.heap p
    let r := h0.length
    let h1 := h0 ++ [freshCell]
    let times := v1.ival
    let d := (cellAt h1 p).data
    let h2 := hmod h1 r (fun c => repPush times.toNat c d)
    match releaseSeq h2 p with
    | .error e => .error e
    | .ok h3 => .ok (mkSeqV r, { st with heap := h3 })
  else if v1.vtype = .SeqType && v2.vtype = .SeqType then
    .error .typeMismatch
  else
    match requireIntType v1 with
    | .error e => .error e
    | .ok _ =>
      match requireIntType v2 with
      | .error e => .error e
      | .ok _ => .ok (mkIntV (v1.ival * v2.ival), st)

/-- The sequence comparison loop of evalLess: walk the common prefix; the
first position where the left element is larger decides false, smaller
decides true; when the common prefix is exhausted, the left sequence is
less exactly when it is shorter. -/
def seqLess : List Int → List Int → Bool
  | [], [] => false
  | [], _ :: _ => true
  | _ :: _, [] => false
  | a :: as, b :: bs => if b < a then false else if a < b then true else seqLess as bs

/-- The body of evalLess of syntax.c after both operands are evaluated:
mismatched kinds are a type mismatch; ints compare numerically; sequences
compare with the loop above.  The C function neither grabs nor releases its
operands, so the heap is untouched. -/
def evalLessVals (v1 v2 : Value) (st : State) : Except Err (Value × State) :=
  if v1.vtype ≠ v2.vtype then .error .typeMismatch
  else if v1.vtype = .IntType then
    .ok (mkIntV (if v1.ival < v2.ival then 1 else 0), st)
  else
    let d1 := (cellAt st.heap v1.sval).data
    let d2 := (cellAt st.heap v2.sval).data
    .ok (mkIntV (if seqLess d1 d2 then 1 else 0), st)

/-- The sequence comparison loop of evalEquals: equal lengths and equal
elements position by position. -/
def seqEqList : List Int → List Int → Bool
  | [], [] => true
  | _ :: _, [] => false
  | [], _ :: _ => false
  | a :: as, b :: bs => if a ≠ b then false else seqEqList as bs

/-- The body of evalEquals of syntax.c after both operands are evaluated:
two ints compare numerically; an int and a sequence are never equal (not an
error); two sequences compare by length and elements.  The C function
neither grabs nor releases its operands, so the heap is untouched. -/
def evalEqualsVals (v1 v2 : Value) (st : State) : Except Err (Value × State) :=
  if v1.vtype = .IntType && v2.vtype = .IntType then
    .ok (mkIntV (if v1.ival = v2.ival then 1 else 0), st)
  else if (v1.vtype = .IntType && v2.vtype = .SeqType) ||
          (v1.vtype = .SeqType && v2.vtype = .IntType) then
    .ok (mkIntV 0, st)
  else
    let d1 := (cellAt st.heap v1.sval).data
    let d2 := (cellAt st.heap v2.sval).data
    .ok (mkIntV (if seqEqList d1 d2 then 1 else 0), st)

mutual

/-- The eval dispatch of syntax.c.  Literals return their value; variables
return lookupVariable without touching anything (evalVariable); binary
operators evaluate left then right and defer to the body functions above;
and/or short-circuit; indexing, len and sequence initializers follow
evalSequenceIndex, evalLen and evalSequence of the source. -/
def evalExpr : Nat → Expr → State → Except Err (Value × State)
  | 0, _, _ => .error .fuelOut
  | fuel + 1, e, st =>
    match e with
    | .lit v => .ok (mkIntV v, st)
    | .var name => .ok (lookupVariable st.env name, st)
    | .add a b =>
      match evalExpr fuel a st with
      | .error e => .error e
      | .ok (v1, st1) =>
        match evalExpr fuel b st1 with
        | .error e => .error e
        | .ok (v2, st2) => evalAddVals v1 v2 st2
    | .sub a b =>
      match evalExpr fuel a st with
      | .error e => .error e
      | .ok (v1, st1) =>
        match evalExpr fuel b st1 with
        | .error e => .error e
        | .ok (v2, st2) =>
          match requireIntType v1 with
          | .error e => .error e
          | .ok _ =>
            match requireIntType v2 with
            | .error e => .error e
            | .ok _ => .ok (mkIntV (v1.ival - v2.ival), st2)
    | .mul a b =>
      match evalExpr fuel a st with
      | .error e => .error e
      | .ok (v1, st1) =>
        match evalExpr fuel b st1 with
        | .error e => .error e
        | .ok (v2, st2) => evalMulVals v1 v2 st2
    | .div a b =>
      match evalExpr fuel a st with
      | .error e => .error e
      | .ok (v1, st1) =>
        match evalExpr fuel b st1 with
        | .error e => .error e
        | .ok (v2, st2) =>
          match requireIntType v1 with
          | .error e => .error e
          | .ok _ =>
            match requireIntType v2 with
            | .error e => .error e
            | .ok _ =>
              if v2.ival = 0 then .error .divideByZero
              else .ok (mkIntV (Int.tdiv v1.ival v2.ival), st2)
    | .andE a b =>
      match evalExpr fuel a st with
      | .error e => .error e
      | .ok (v1, st1) =>
        match requireIntType v1 with
        | .error e => .error e
        | .ok _ =>
          if v1.ival = 0 then .ok (v1, st1)
          else
            match evalExpr fuel b st1 with
            | .error e => .error e
            | .ok (v2, st2) =>
              match requireIntType v2 with
              | .error e => .error e
              | .ok _ => .ok (v2, st2)
    | .orE a b =>
      match evalExpr fuel a st with
      | .error e => .error e
      | .ok (v1, st1) =>
        match requireIntType v1 with
        | .error e => .error e
        | .ok _ =>
          if v1.ival ≠ 0 then .ok (v1, st1)
          else
            match evalExpr fuel b st1 with
            | .error e => .error e
            | .ok (v2, st2) =>
              match requireIntType v2 with
              | .error e => .error e
              | .ok _ => .ok (v2, st2)
    | .less a b =>
      match evalExpr fuel a st with
      | .error e => .error e
      | .ok (v1, st1) =>
        match evalExpr fuel b st1 with
        | .error e => .error e
        | .ok (v2, st2) => evalLessVals v1 v2 st2
    | .eq a b =>
      match evalExpr fuel a st with
      | .error e => .error e
      | .ok (v1, st1) =>
        match evalExpr fuel b st1 with
        | .error e => .error e
        | .ok (v2, st2) => evalEqualsVals v1 v2 st2
    | .index a i =>
      match evalExpr fuel a st with
      | .error e => .error e
      | .ok (vs, st1) =>
        match evalExpr fuel i st1 with
        | .error e => .error e
        | .ok (vi, st2) =>
          match requireSeqType vs with
          | .error e => .error e
          | .ok _ =>
            match requireIntType vi with
            | .error e => .error e
            | .ok _ =>
              let p := vs.sval
              let h0 := grabSeq st2.heap p
              let c := cellAt h0 p
              if vi.ival < 0 || (c.data.length : Int) ≤ vi.ival then
                .error .indexOutOfBounds
              else
                let v := c.data.getD vi.ival.toNat 0
                match releaseSeq h0 p with
                | .error e => .error e
                | .ok h1 => .ok (mkIntV v, { st2 with heap := h1 })
    | .lenE a =>
      match evalExpr fuel a st with
      | .error e => .error e
      | .ok (vs, st1) =>
        match requireSeqType vs with
        | .error e => .error e
        | .ok _ =>
          let p := vs.sval
          let h0 := grabSeq st1.heap p
          let l := (cellAt h0 p).data.length
          match releaseSeq h0 p with
          | .error e => .error e
          | .ok h1 => .ok (mkIntV l, { st1 with heap := h1 })
    | .seqInit es =>
      let r := st.heap.length
      evalSeqLoop fuel es r { st with heap := st.heap ++ [freshCell] }

/-- The element loop of evalSequence: evaluate each element expression in
order, require it to be an int, and append it to the cell at address r. -/
def evalSeqLoop : Nat → List Expr → Nat → State → Except Err (Value × State)
  | 0, _, _, _ => .error .fuelOut
  | _ + 1, [], r, st => .ok (mkSeqV r, st)
  | fuel + 1, e :: es, r, st =>
    match evalExpr fuel e st with
    | .error e2 => .error e2
    | .ok (v, st1) =>
      match requireIntType v with
      | .error e2 => .error e2
      | .ok _ =>
        evalSeqLoop fuel es r { st1 with heap := hmod st1.heap r (fun c => seqPushCell c v.ival) }

end

mutual

/-- The execute dispatch of syntax.c: executePrint, executeCompound,
executeIf, executeWhile, executePush and executeAssignment. -/
def execStmt : Nat → Stmt → State → Except Err State
  | 0, _, _ => .error .fuelOut
  | fuel + 1, s, st =>
    match s with
    | .print e =>
      match evalExpr fuel e st with
      | .error e2 => .error e2
      | .ok (v, st1) =>
        if v.vtype = .IntType then
          .ok { st1 with out := st1.out ++ (toString v.ival).toList }
        else
          let p := v.sval
          let h0 := grabSeq st1.heap p
          let text := (cellAt h0 p).data.map (fun x => Char.ofNat (Int.emod x 256).toNat)
          match releaseSeq h0 p with
          | .error e2 => .error e2
          | .ok h1 => .ok { st1 with heap := h1, out := st1.out ++ text }
    | .compound l => execStmts fuel l st
    | .ifS c b =>
      match evalExpr fuel c st with
      | .error e2 => .error e2
      | .ok (v, st1) =>
        match requireIntType v with
        | .error e2 => .error e2
        | .ok _ =>
          if v.ival ≠ 0 then execStmt fuel b st1 else .ok st1
    | .whileS c b =>
      match evalExpr fuel c st with
      | .error e2 => .error e2
      | .ok (v, st1) =>
        match requireIntType v with
        | .error e2 => .error e2
        | .ok _ => execWhile fuel c b v st1
    | .push se ve =>
      match evalExpr fuel se st with
      | .error e2 => .error e2
      | .ok (vs, st1) =>
        match evalExpr fuel ve st1 with
        | .error e2 => .error e2
        | .ok (vv, st2) =>
          match requireSeqType vs with
          | .error e2 => .error e2
          | .ok _ =>
            match requireIntType vv with
            | .error e2 => .error e2
            | .ok _ =>
              let p := vs.sval
              let h0 := grabSeq st2.heap p
              let h1 := hmod h0 p (fun c => seqPushCell c vv.ival)
              match releaseSeq h1 p with
              | .error e2 => .error e2
              | .ok h2 => .ok { st2 with heap := h2 }
    | .assign name none rhs =>
      match evalExpr fuel rhs st with
      | .error e2 => .error e2
      | .ok (result, st1) =>
        let h0 := if result.vtype = .SeqType then grabSeq st1.heap result.sval else st1.heap
        match setVariable st1.env name result h0 with
        | .error e2 => .error e2
        | .ok (env2, h1) => .ok { st1 with heap := h1, env := env2 }
    | .assign name (some ie) rhs =>
      match evalExpr fuel rhs st with
      | .error e2 => .error e2
      | .ok (result, st1) =>
        match evalExpr fuel ie st1 with
        | .error e2 => .error e2
        | .ok (iv, st2) =>
          match requireIntType iv with
          | .error e2 => .error e2
          | .ok _ =>
            let s := lookupVariable st2.env name
            match requireSeqType s with
            | .error e2 => .error e2
            | .ok _ =>
              let p := s.sval
              let c := cellAt st2.heap p
              if iv.ival < 0 || (c.data.length : Int) ≤ iv.ival then
                .error .indexOutOfBounds
              else
                .ok { st2 with
                      heap := hmod st2.heap p
                        (fun c2 => { c2 with data := c2.data.set iv.ival.toNat result.ival }) }

/-- The statement loop of executeCompound. -/
def execStmts : Nat → List Stmt → State → Except Err State
  | 0, _, _ => .error .fuelOut
  | _ + 1, [], st => .ok st
  | fuel + 1, s :: rest, st =>
    match execStmt fuel s st with
    | .error e => .error e
    | .ok st1 => execStmts fuel rest st1

/-- The loop of executeWhile: v is the value the condition just evaluated
to; while it is nonzero, run the body and re-evaluate the condition,
re-requiring an int. -/
def execWhile : Nat → Expr → Stmt → Value → State → Except Err State
  | 0, _, _, _, _ => .error .fuelOut
  | fuel + 1, c, b, v, st =>
    if v.ival = 0 then .ok st
    else
      match execStmt fuel b st with
      | .error e => .error e
      | .ok st1 =>
        match evalExpr fuel c st1 with
        | .error e => .error e
        | .ok (v2, st2) =>
          match requireIntType v2 with
          | .error e => .error e
          | .ok _ => execWhile fuel c b v2 st2

end

/-- The driver loop of interpret.c: read a token; at end of input free the
environment and stop; otherwise parse one statement, execute it, and
continue with the same environment. -/
def interpLoop : Nat → PStream → State → Except Err State
  | 0, _, _ => .error .fuelOut
  | fuel + 1, ps, st =>
    match parseToken ps with
    | .error e => .error e
    | .ok (.eof _) =>
      match freeEnvironment st.env st.heap with
      | .error e => .error e
      | .ok h => .ok { st with heap := h, env := [] }
    | .ok (.tok t ps2) =>
      match parseStmt fuel t ps2 with
      | .error e => .error e
      | .ok (stmt, ps3) =>
        match execStmt fuel stmt st with
        | .error e => .error e
        | .ok st1 => interpLoop fuel ps3 st1

/-- Run a program source text: exit status 0 of the C program corresponds
to an ok result carrying the final interpreter state. -/
def interpret (fuel : Nat) (src : String) : Except Err State :=
  interpLoop fuel ⟨src.toList, 1⟩ ⟨[], [], []⟩

/-- The text a run writes to standard output, when it exits with status 0. -/
def interpretOut (fuel : Nat) (src : String) : Except Err (List Char) :=
  (interpret fuel src).map State.out

/-! Small facts about heap reads and updates, used by the theorems below. -/

theorem cellAt_nil (p : Nat) : cellAt [] p = cellD := by
  cases p <;> rfl

theorem cellAt_cons_succ (x : Cell) (t : Heap) (p : Nat) :
    cellAt (x :: t) (p + 1) = cellAt t p := rfl

theorem cellAt_set_lt : ∀ (h : Heap) (p : Nat) (c : Cell), p < h.length →
    cellAt (h.set p c) p = c
  | [], p, _, hp => absurd hp (by simp)
  | _ :: _, 0, _, _ => rfl
  | _ :: t, p + 1, c, hp => cellAt_set_lt t p c (by simpa using hp)

theorem cellAt_set_ne : ∀ (h : Heap) (p q : Nat) (c : Cell), q ≠ p →
    cellAt (h.set p c) q = cellAt h q
  | [], _, _, _, _ => by simp [List.set]
  | _ :: _, 0, 0, _, hq => absurd rfl hq
  | _ :: _, 0, _ + 1, _, _ => rfl
  | _ :: _, _ + 1, 0, _, _ => rfl
  | _ :: t, p + 1, q + 1, c, hq => cellAt_set_ne t p q c (fun h2 => hq (by omega))

theorem cellAt_append_lt : ∀ (h t : Heap) (p : Nat), p < h.length →
    cellAt (h ++ t) p = cellAt h p
  | [], _, p, hp => absurd hp (by simp)
  | _ :: _, _, 0, _ => rfl
  | _ :: r, t, p + 1, hp => cellAt_append_lt r t p (by simpa using hp)

theorem cellAt_append_len : ∀ (h : Heap) (c : Cell), cellAt (h ++ [c]) h.length = c
  | [], _ => rfl
  | _ :: r, c => cellAt_append_len r c

theorem length_hmod (h : Heap) (p : Nat) (f : Cell → Cell) :
    (hmod h p f).length = h.length := by
  simp [hmod]

theorem cellAt_hmod_self (h : Heap) (p : Nat) (f : Cell → Cell) (hp : p < h.length) :
    cellAt (hmod h p f) p = f (cellAt h p) :=
  cellAt_set_lt h p _ hp

theorem cellAt_hmod_ne (h : Heap) (p q : Nat) (f : Cell → Cell) (hq : q ≠ p) :
    cellAt (hmod h p f) q = cellAt h q :=
  cellAt_set_ne h p q _ hq

theorem length_grabSeq (h : Heap) (p : Nat) : (grabSeq h p).length = h.length :=
  length_hmod h p _

theorem cellAt_grabSeq_data (h : Heap) (p q : Nat) :
    (cellAt (grabSeq h p) q).data = (cellAt h q).data := by
  by_cases hq : q = p
  · subst hq
    by_cases hp : q < h.length
    · rw [grabSeq, cellAt_hmod_self h q _ hp]
    · rw [grabSeq, hmod, List.set_eq_of_length_le (by omega)]
  · rw [grabSeq, cellAt_hmod_ne h p q _ hq]

theorem cellAt_grabSeq_self (h : Heap) (p : Nat) (hp : p < h.length) :
    cellAt (grabSeq h p) p = { cellAt h p with ref := (cellAt h p).ref + 1 } :=
  cellAt_hmod_self h p _ hp

theorem cellAt_grabSeq_ne (h : Heap) (p q : Nat) (hq : q ≠ p) :
    cellAt (grabSeq h p) q = cellAt h q :=
  cellAt_hmod_ne h p q _ hq

/-- When the reference count is at least one, releaseSequence succeeds; it
changes neither the heap size nor the stored elements of any cell nor any
other cell, and it decrements the reference count of cell p. -/
theorem releaseSeq_ok (h : Heap) (p : Nat) (hp : p < h.length)
    (href : 1 ≤ (cellAt h p).ref) :
    ∃ h2, releaseSeq h p = .ok h2 ∧ h2.length = h.length ∧
      (∀ q, (cellAt h2 q).data = (cellAt h q).data) ∧
      (∀ q, q ≠ p → cellAt h2 q = cellAt h q) ∧
      (cellAt h2 p).ref = (cellAt h p).ref - 1 := by
  rw [releaseSeq]
  by_cases h0 : (cellAt h p).ref - 1 ≤ 0
  · have hz : (cellAt h p).ref - 1 = 0 := by omega
    rw [if_pos h0, if_pos hz]
    refine ⟨_, rfl, by simp, ?_, ?_, ?_⟩
    · intro q
      by_cases hq : q = p
      · subst hq
        rw [cellAt_set_lt h q _ hp]
      · rw [cellAt_set_ne h p q _ hq]
    · intro q hq
      rw [cellAt_set_ne h p q _ hq]
    · rw [cellAt_set_lt h p _ hp]
  · rw [if_neg h0]
    refine ⟨_, rfl, by simp, ?_, ?_, ?_⟩
    · intro q
      by_cases hq : q = p
      · subst hq
        rw [cellAt_set_lt h q _ hp]
      · rw [cellAt_set_ne h p q _ hq]
    · intro q hq
      rw [cellAt_set_ne h p q _ hq]
    · rw [cellAt_set_lt h p _ hp]

/-- The data written by the append loops: appending xs element by element
appends xs to the stored list. -/
theorem pushElems_data : ∀ (xs : List Int) (c : Cell), (pushElems c xs).data = c.data ++ xs
  | [], c => by simp [pushElems]
  | x :: r, c => by
    have step : (seqPushCell c x).data = c.data ++ [x] := by
      rw [seqPushCell]
      by_cases hc : c.cap ≤ c.data.length <;> simp [hc]
    calc (pushElems c (x :: r)).data
        = (pushElems (seqPushCell c x) r).data := rfl
      _ = (seqPushCell c x).data ++ r := pushElems_data r (seqPushCell c x)
      _ = c.data ++ (x :: r) := by rw [step]; simp

/-! Claim C1.  The spec's scenario table promises the output 14 for the
program with a print of 2 + 3 * 4, but the parser deliberately gives all
infix operators one flat precedence level (spec section 9 relies on it), so
the program computes (2 + 3) * 4 = 20. -/

/-- Claim C1 counterexample: executing the one-statement program that
prints 2 + 3 * 4 writes the text 20 — not 14 — to standard output (and does
exit with status 0). -/
theorem C1_counterexample :
    interpretOut 100 "print 2 + 3 * 4;" = .ok ['2', '0'] ∧
    ('2' :: '0' :: ([] : List Char)) ≠ '1' :: '4' :: [] :=
  ⟨rfl, by decide⟩

/-- Claim C1 as amended: executing the one-statement program that prints
2 + 3 * 4 writes exactly the text 20 to standard output and exits with
status 0 (the ok result of the embedded run). -/
theorem C1_amended :
    interpretOut 100 "print 2 + 3 * 4;" = .ok ['2', '0'] := rfl

/-! Claim C2.  In evalMul the both-sequences type-mismatch branch is dead
code: the branch for a sequence left operand fires first and reads the
right operand's ival union member as the repetition count.  Seq * Seq
therefore produces a sequence value and never reports Type mismatch. -/

/-- Claim C2 is violated by the code: multiplying two sequences never
produces the Type mismatch diagnostic — for all operands and states the
body of evalMul applied to two sequence values does not return it — and the
concrete program multiplying a one-element sequence by itself runs to
completion with exit status 0, printing 0 (the repetition count read from
the union is the sequence's address, 0). -/
theorem releaseSeq_error_shape (h : Heap) (p : Nat) (e : Err)
    (he : releaseSeq h p = .error e) : e = .assertFail := by
  rw [releaseSeq] at he
  by_cases h1 : (cellAt h p).ref - 1 ≤ 0
  · by_cases h2 : (cellAt h p).ref - 1 = 0
    · simp [h1, h2] at he
    · simp only [h1, if_true, h2, if_false] at he
      cases he; rfl
  · simp [h1] at he

theorem C2_seq_mul_no_mismatch :
    (∀ (p q : Nat) (st : State),
      evalMulVals (mkSeqV p) (mkSeqV q) st ≠ .error .typeMismatch) ∧
    interpretOut 100 "a = [7]; print len (a * a);" = .ok ['0'] := by
  refine ⟨?_, rfl⟩
  intro p q st
  have hv : (mkSeqV p).vtype = ValType.SeqType := rfl
  simp only [evalMulVals, hv, eq_self_iff_true, if_true]
  intro hcon
  revert hcon
  split
  · next e heq =>
    have := releaseSeq_error_shape _ _ _ heq
    simp [this]
  · simp

/-! Claim C3.  executeAssignment evaluates the right-hand side of an
indexed assignment but never requires it to be an int: a sequence-valued
right-hand side is not a Type mismatch; its union payload (the cell
address) is stored into the element. -/

/-- Claim C3 counterexample: the indexed assignment whose right-hand side
is the sequence literal holding 5 runs to completion (exit 0) instead of
reporting Type mismatch; the element receives the right-hand value's union
payload — the address 1 of the freshly built sequence — so the program
prints 8 and leaves the first sequence's data as 1, 8. -/
theorem C3_counterexample :
    (interpret 100 "a = [7,8]; a[0] = [5]; print a[1];").map
      (fun st => (st.out, st.heap.map Cell.data)) = .ok (['8'], [[1, 8], [5]]) := rfl

/-! Claim C4.  evalLess and evalEquals neither grab nor release their
operand sequences, so a fresh operand sequence (reference count 0) is never
released and never freed: the run below terminates normally having created
two sequences, both still alive with a free count of 0. -/

/-- Claim C4 is violated by the code: the program that prints the
comparison of two fresh sequence literals terminates normally (exit status
0, output 1), yet neither of the two sequences created during the run is
ever freed — both cells end alive with zero frees, because evalLess holds
its operands without grabbing or releasing them. -/
theorem C4_leak :
    (interpret 100 "print [1] < [2];").map
      (fun st => (st.out, st.heap.map (fun c => (c.freed, c.alive)))) =
    .ok (['1'], [(0, true), (0, true)]) := rfl

/-! Claim C8: lookup of an unbound name. -/

/-- Claim C8: for every environment and every name bound by no record of
it, lookupVariable returns the int 0; and evaluating a variable read never
fails in any evaluation context — for any state whose environment is that
environment, the read returns the int 0 and the unchanged state. -/
theorem C8_unknown_lookup (env : Env) (name : Tok)
    (h : ∀ pr ∈ env, pr.1 ≠ name) :
    lookupVariable env name = mkIntV 0 ∧
    ∀ (n : Nat) (st : State), st.env = env →
      evalExpr (n + 1) (.var name) st = .ok (mkIntV 0, st) := by
  have base : lookupVariable env name = mkIntV 0 := by
    induction env with
    | nil => rfl
    | cons pr r ih =>
      have hne : pr.1 ≠ name := h pr (by simp)
      rw [lookupVariable]
      simp only [hne, if_false]
      exact ih (fun q hq => h q (by simp [hq]))
  refine ⟨base, ?_⟩
  intro n st hst
  have step : evalExpr (n + 1) (.var name) st = .ok (lookupVariable st.env name, st) := rfl
  rw [step, hst, base]

/-- Witness for claim C8 at a concrete environment and name. -/
theorem C8_unknown_lookup_witness :
    lookupVariable [(['x'], mkIntV 5)] ['y'] = mkIntV 0 ∧
    ∀ (n : Nat) (st : State), st.env = [(['x'], mkIntV 5)] →
      evalExpr (n + 1) (.var ['y']) st = .ok (mkIntV 0, st) :=
  C8_unknown_lookup [(['x'], mkIntV 5)] ['y'] (by decide)

/-! Claim C10: a variable read is effect free. -/

/-- Claim C10: evaluating a variable occurrence returns the looked-up value
and the state completely unchanged — no slot is created on a miss, no
binding is modified, no reference count moves. -/
theorem C10_var_frame (n : Nat) (st : State) (name : Tok) :
    evalExpr (n + 1) (.var name) st = .ok (lookupVariable st.env name, st) := rfl

/-! Claim C9: a minus sign directly followed by a digit lexes as one
negative integer-literal token, so a subtraction written without space
before the digit is a syntax error. -/

/-- Behaviour of the token-continuation loop on an input it fully accepts
up to the first non-matching character. -/
theorem readWhile_spec (p : Char → Bool) (line : Nat) :
    ∀ (l : List Char) (acc : Tok), acc.length + (l.takeWhile p).length ≤ maxToken →
    readWhile p line acc l = .ok (acc ++ l.takeWhile p, l.dropWhile p)
  | [], acc, _ => by simp [readWhile]
  | c :: r, acc, h => by
    by_cases hc : p c
    · have ht : (c :: r).takeWhile p = c :: r.takeWhile p := by
        simp [List.takeWhile_cons, hc]
      have hlen : ¬ maxToken ≤ acc.length := by
        rw [ht] at h; simp at h; omega
      have hrec := readWhile_spec p line r (acc ++ [c]) (by rw [ht] at h; simp at h ⊢; omega)
      rw [readWhile, addToToken]
      simp only [hc, if_true, hlen, if_false]
      rw [hrec, ht, List.dropWhile_cons]
      simp [hc]
    · rw [readWhile]
      simp [hc, List.takeWhile_cons, List.dropWhile_cons]

/-- Claim C9: whenever the unread input starts with a minus sign
immediately followed by a digit, parseToken lexes the minus together with
the maximal run of following digits as one token (an integer literal); and
consequently the program printing 5-3 with no space before the 3 is
rejected with the line-1 syntax error instead of being parsed as a
subtraction. -/
theorem C9_negative_literal (d : Char) (rest : List Char) (line : Nat)
    (hd : isDigitC d = true)
    (hlen : (rest.takeWhile isDigitC).length ≤ 1021) :
    parseToken ⟨'-' :: d :: rest, line⟩ =
      .ok (.tok ('-' :: d :: rest.takeWhile isDigitC) ⟨rest.dropWhile isDigitC, line⟩) ∧
    interpret 100 "print 5-3;" = .error (.syntaxErr 1) := by
  refine ⟨?_, rfl⟩
  have ht : (d :: rest).takeWhile isDigitC = d :: rest.takeWhile isDigitC := by
    simp [List.takeWhile_cons, hd]
  have hdw : (d :: rest).dropWhile isDigitC = rest.dropWhile isDigitC := by
    simp [List.dropWhile_cons, hd]
  have hrw := readWhile_spec isDigitC line (d :: rest) ['-']
    (by rw [ht]; simp [maxToken]; omega)
  have step : parseToken ⟨'-' :: d :: rest, line⟩ =
      (match readWhile isDigitC line ['-'] (d :: rest) with
       | .error e => .error e
       | .ok (t, r2) => .ok (.tok t ⟨r2, line⟩)) := rfl
  rw [step, hrw, ht, hdw]
  rfl

/-- Witness for claim C9 at a concrete digit and remaining input. -/
theorem C9_negative_literal_witness :
    parseToken ⟨'-' :: '3' :: [';'], 1⟩ =
      .ok (.tok ('-' :: '3' :: ([';'].takeWhile isDigitC)) ⟨[';'].dropWhile isDigitC, 1⟩) ∧
    interpret 100 "print 5-3;" = .error (.syntaxErr 1) :=
  C9_negative_literal '3' [';'] 1 (by decide) (by decide)

/-- Claim C3 as amended: for an indexed assignment the evaluator first
evaluates the right-hand side — without checking its type — then evaluates
the index requiring an int (Type mismatch otherwise), then looks up the
name requiring a sequence (Type mismatch otherwise), bounds-checks the
index against the sequence length (Index out of bounds outside), and
overwrites exactly that element in place with the right-hand value's
integer union payload. -/
theorem C3_amended (n : Nat) (st st1 st2 : State) (name : Tok) (ie rhs : Expr)
    (result iv : Value)
    (hrhs : evalExpr n rhs st = .ok (result, st1))
    (hie : evalExpr n ie st1 = .ok (iv, st2)) :
    (iv.vtype ≠ .IntType →
      execStmt (n + 1) (.assign name (some ie) rhs) st = .error .typeMismatch) ∧
    (iv.vtype = .IntType → (lookupVariable st2.env name).vtype ≠ .SeqType →
      execStmt (n + 1) (.assign name (some ie) rhs) st = .error .typeMismatch) ∧
    (iv.vtype = .IntType → (lookupVariable st2.env name).vtype = .SeqType →
      (iv.ival < 0 ∨
        ((cellAt st2.heap (lookupVariable st2.env name).sval).data.length : Int) ≤ iv.ival) →
      execStmt (n + 1) (.assign name (some ie) rhs) st = .error .indexOutOfBounds) ∧
    (iv.vtype = .IntType → (lookupVariable st2.env name).vtype = .SeqType →
      0 ≤ iv.ival →
      iv.ival < ((cellAt st2.heap (lookupVariable st2.env name).sval).data.length : Int) →
      execStmt (n + 1) (.assign name (some ie) rhs) st =
        .ok { st2 with
              heap := hmod st2.heap (lookupVariable st2.env name).sval
                        (fun c2 => { c2 with
                                     data := c2.data.set iv.ival.toNat result.ival }) }) := by
  have unfoldA : execStmt (n + 1) (.assign name (some ie) rhs) st =
      (match evalExpr n rhs st with
       | .error e2 => .error e2
       | .ok (result, st1) =>
         match evalExpr n ie st1 with
         | .error e2 => .error e2
         | .ok (iv, st2) =>
           match requireIntType iv with
           | .error e2 => .error e2
           | .ok _ =>
             let s := lookupVariable st2.env name
             match requireSeqType s with
             | .error e2 => .error e2
             | .ok _ =>
               let p := s.sval
               let c := cellAt st2.heap p
               if iv.ival < 0 || (c.data.length : Int) ≤ iv.ival then
                 .error .indexOutOfBounds
               else
                 .ok { st2 with
                       heap := hmod st2.heap p
                                 (fun c2 => { c2 with
                                              data := c2.data.set iv.ival.toNat
                                                        result.ival }) }) := rfl
  rw [unfoldA]
  simp only [hrhs, hie]
  refine ⟨?_, ?_, ?_, ?_⟩
  · intro hiv
    simp [requireIntType, hiv]
  · intro hiv hseq
    simp [requireIntType, requireSeqType, hiv, hseq]
  · intro hiv hseq hbound
    have hcond : (decide (iv.ival < 0) ||
        decide (((cellAt st2.heap (lookupVariable st2.env name).sval).data.length : Int)
          ≤ iv.ival)) = true := by
      rcases hbound with hb | hb
      · simp [hb]
      · simp [hb]
    simp [requireIntType, requireSeqType, hiv, hseq, hcond]
  · intro hiv hseq hlo hhi
    have hcond : (decide (iv.ival < 0) ||
        decide (((cellAt st2.heap (lookupVariable st2.env name).sval).data.length : Int)
          ≤ iv.ival)) = false := by
      simp
      omega
    simp [requireIntType, requireSeqType, hiv, hseq, hcond]

/-- Witness for the amended claim C3 at a concrete state: the environment
binds a to a two-element sequence, the right-hand side is the sequence
literal holding 5 (so its value is a sequence, not an int), and the
assignment still succeeds, overwriting element 0 with the literal's heap
address 1. -/
theorem C3_amended_witness :
    execStmt 4 (.assign ['a'] (some (.lit 0)) (.seqInit [.lit 5]))
        ⟨[⟨[7, 8], 5, 1, true, 0⟩], [(['a'], mkSeqV 0)], []⟩ =
      .ok ⟨[⟨[1, 8], 5, 1, true, 0⟩, ⟨[5], 5, 0, true, 0⟩], [(['a'], mkSeqV 0)], []⟩ := by
  have h := (C3_amended 3
    ⟨[⟨[7, 8], 5, 1, true, 0⟩], [(['a'], mkSeqV 0)], []⟩
    ⟨[⟨[7, 8], 5, 1, true, 0⟩, ⟨[5], 5, 0, true, 0⟩], [(['a'], mkSeqV 0)], []⟩
    ⟨[⟨[7, 8], 5, 1, true, 0⟩, ⟨[5], 5, 0, true, 0⟩], [(['a'], mkSeqV 0)], []⟩
    ['a'] (.lit 0) (.seqInit [.lit 5]) (mkSeqV 1) (mkIntV 0)
    rfl rfl).2.2.2 rfl rfl (by decide) (by decide)
  exact h.trans rfl

/-! Claim C6: the sequence comparison of evalLess is the lexicographic
order, and it is a trichotomy together with evalEquals. -/

theorem seqEqList_iff : ∀ (a b : List Int), seqEqList a b = true ↔ a = b
  | [], [] => by simp [seqEqList]
  | [], _ :: _ => by simp [seqEqList]
  | _ :: _, [] => by simp [seqEqList]
  | x :: as, y :: bs => by
    rw [seqEqList]
    by_cases hxy : x = y
    · subst hxy
      simp [seqEqList_iff as bs]
    · simp [hxy]

theorem lex_cons_iff (a b : Int) (as bs : List Int) :
    List.Lex (· < ·) (a :: as) (b :: bs) ↔ a < b ∨ (a = b ∧ List.Lex (· < ·) as bs) := by
  constructor
  · intro h
    cases h with
    | cons h2 => exact Or.inr ⟨rfl, h2⟩
    | rel h2 => exact Or.inl h2
  · rintro (h2 | ⟨rfl, h2⟩)
    · exact List.Lex.rel h2
    · exact List.Lex.cons h2

theorem not_lex_of_nil (l : List Int) : ¬ List.Lex (· < ·) l [] := by
  intro h
  cases h

theorem seqLess_iff_lex : ∀ (a b : List Int), seqLess a b = true ↔ List.Lex (· < ·) a b
  | [], [] => by simp [seqLess, not_lex_of_nil]
  | [], x :: bs => by
    simp only [seqLess, true_iff]
    exact List.Lex.nil
  | a :: as, [] => by simp [seqLess, not_lex_of_nil]
  | a :: as, b :: bs => by
    rw [seqLess, lex_cons_iff]
    rcases lt_trichotomy a b with h | h | h
    · have h2 : ¬ b < a := by omega
      simp [h, h2]
    · subst h
      simp [lt_irrefl, seqLess_iff_lex as bs]
    · have h2 : ¬ a < b := by omega
      have h3 : a ≠ b := by omega
      simp [h, h2, h3]

theorem seqLess_exactly_one : ∀ (a b : List Int),
    (if seqLess a b then 1 else 0) + (if seqEqList a b then 1 else 0) +
      (if seqLess b a then 1 else 0) = 1
  | [], [] => rfl
  | [], _ :: _ => rfl
  | _ :: _, [] => rfl
  | a :: as, b :: bs => by
    have ih := seqLess_exactly_one as bs
    simp only [seqLess, seqEqList]
    rcases lt_trichotomy a b with h | h | h
    · have h2 : ¬ b < a := by omega
      have h3 : a ≠ b := by omega
      simp [h, h2, h3]
    · subst h
      simpa [lt_irrefl] using ih
    · have h2 : ¬ a < b := by omega
      have h3 : a ≠ b := by omega
      simp [h, h2, h3]

/-- Claim C6: on sequences, Less computes exactly the lexicographic strict
order over element values (first differing index decides; a strict prefix
is smaller; equal sequences are not less — this is List.Lex of the strict
order on the integers), Equals computes list equality, exactly one of
a less b, a equals b, b less a holds, and the bodies of evalLess and
evalEquals applied to two sequence values return Int 1 or Int 0
accordingly, leaving the state untouched. -/
theorem C6_lex_total (a b : List Int) (st : State) (p q : Nat) :
    (seqLess a b = true ↔ List.Lex (· < ·) a b) ∧
    (seqEqList a b = true ↔ a = b) ∧
    ((if seqLess a b then 1 else 0) + (if seqEqList a b then 1 else 0) +
      (if seqLess b a then 1 else 0) = 1) ∧
    evalLessVals (mkSeqV p) (mkSeqV q) st =
      .ok (mkIntV (if seqLess (cellAt st.heap p).data (cellAt st.heap q).data
        then 1 else 0), st) ∧
    evalEqualsVals (mkSeqV p) (mkSeqV q) st =
      .ok (mkIntV (if seqEqList (cellAt st.heap p).data (cellAt st.heap q).data
        then 1 else 0), st) :=
  ⟨seqLess_iff_lex a b, seqEqList_iff a b, seqLess_exactly_one a b, rfl, rfl⟩

/-! Claim C7: adding two sequences concatenates. -/

/-- Claim C7: evaluating the addition of two sequence values yields a fresh
sequence (allocated at the end of the heap) whose elements are the left
operand's elements followed by the right operand's elements; in particular
its length is the sum of the two lengths. -/
theorem C7_concat (st : State) (p1 p2 : Nat)
    (hp1 : p1 < st.heap.length) (hp2 : p2 < st.heap.length)
    (hr1 : 0 ≤ (cellAt st.heap p1).ref) (hr2 : 0 ≤ (cellAt st.heap p2).ref) :
    ∃ st2 : State,
      evalAddVals (mkSeqV p1) (mkSeqV p2) st = .ok (mkSeqV st.heap.length, st2) ∧
      (cellAt st2.heap st.heap.length).data =
        (cellAt st.heap p1).data ++ (cellAt st.heap p2).data ∧
      (cellAt st2.heap st.heap.length).data.length =
        (cellAt st.heap p1).data.length + (cellAt st.heap p2).data.length := by
  set h0 : Heap := grabSeq (grabSeq st.heap p1) p2 with hh0
  set h1 : Heap := h0 ++ [freshCell] with hh1
  set h2 : Heap := hmod h1 h0.length (fun c => pushElems c (cellAt h1 p1).data) with hh2
  have unfoldA : evalAddVals (mkSeqV p1) (mkSeqV p2) st =
      (match releaseSeq h2 p1 with
       | .error e => .error e
       | .ok h3 =>
         match releaseSeq (hmod h3 h0.length (fun c => pushElems c (cellAt h3 p2).data)) p2 with
         | .error e => .error e
         | .ok h5 => .ok (mkSeqV h0.length, { st with heap := h5 })) := rfl
  rw [unfoldA]
  have hlen0 : h0.length = st.heap.length := by
    rw [hh0, length_grabSeq, length_grabSeq]
  have hlen1 : h1.length = st.heap.length + 1 := by
    rw [hh1, List.length_append, hlen0]
    rfl
  have hd1 : (cellAt h1 p1).data = (cellAt st.heap p1).data := by
    rw [hh1, cellAt_append_lt h0 _ p1 (by omega), hh0,
      cellAt_grabSeq_data, cellAt_grabSeq_data]
  have hlen2 : h2.length = st.heap.length + 1 := by
    rw [hh2, length_hmod, hlen1]
  have hp1r : p1 ≠ h0.length := by omega
  have hp2r : p2 ≠ h0.length := by omega
  have hc1r : cellAt h1 h0.length = freshCell := by
    rw [hh1]
    exact cellAt_append_len h0 freshCell
  have hc2r : cellAt h2 h0.length = pushElems freshCell (cellAt h1 p1).data := by
    rw [hh2, cellAt_hmod_self h1 h0.length _ (by omega), hc1r]
  have hc2p1 : cellAt h2 p1 = cellAt h1 p1 := by
    rw [hh2, cellAt_hmod_ne h1 h0.length p1 _ hp1r]
  have hc2p2 : cellAt h2 p2 = cellAt h1 p2 := by
    rw [hh2, cellAt_hmod_ne h1 h0.length p2 _ hp2r]
  have hc1p1 : cellAt h1 p1 = cellAt h0 p1 := by
    rw [hh1, cellAt_append_lt h0 _ p1 (by omega)]
  have hc1p2 : cellAt h1 p2 = cellAt h0 p2 := by
    rw [hh1, cellAt_append_lt h0 _ p2 (by omega)]
  have hrefp1 : 1 ≤ (cellAt h2 p1).ref := by
    rw [hc2p1, hc1p1, hh0]
    by_cases hpp : p1 = p2
    · subst hpp
      rw [cellAt_grabSeq_self _ p1 (by rw [length_grabSeq]; omega),
        cellAt_grabSeq_self _ p1 (by omega)]
      simp
      omega
    · rw [cellAt_grabSeq_ne _ p2 p1 (by omega), cellAt_grabSeq_self _ p1 (by omega)]
      simp
      omega
  obtain ⟨h3, hrel1, hlen3, hdat3, hoth3, href3⟩ :=
    releaseSeq_ok h2 p1 (by omega) hrefp1
  simp only [hrel1]
  set h4 : Heap := hmod h3 h0.length (fun c => pushElems c (cellAt h3 p2).data) with hh4
  have hlen4 : h4.length = st.heap.length + 1 := by
    rw [hh4, length_hmod]
    omega
  have hd2 : (cellAt h3 p2).data = (cellAt st.heap p2).data := by
    rw [hdat3 p2, hc2p2, hc1p2, hh0, cellAt_grabSeq_data, cellAt_grabSeq_data]
  have hc4r : (cellAt h4 h0.length).data =
      (cellAt st.heap p1).data ++ (cellAt st.heap p2).data := by
    rw [hh4, cellAt_hmod_self h3 h0.length _ (by omega), pushElems_data]
    rw [hdat3 h0.length, hc2r, pushElems_data]
    rw [hd1, hd2]
    simp [freshCell]
  have hrefp2 : 1 ≤ (cellAt h4 p2).ref := by
    rw [hh4, cellAt_hmod_ne h3 h0.length p2 _ hp2r]
    by_cases hpp : p1 = p2
    · subst hpp
      rw [href3, hc2p1, hc1p1, hh0,
        cellAt_grabSeq_self _ p1 (by rw [length_grabSeq]; omega),
        cellAt_grabSeq_self _ p1 (by omega)]
      simp
      omega
    · rw [hoth3 p2 (by omega), hc2p2, hc1p2, hh0,
        cellAt_grabSeq_self _ p2 (by rw [length_grabSeq]; omega)]
      rw [cellAt_grabSeq_ne st.heap p1 p2 (by omega)]
      simp
      omega
  obtain ⟨h5, hrel2, hlen5, hdat5, hoth5, href5⟩ :=
    releaseSeq_ok h4 p2 (by omega) hrefp2
  simp only [hrel2]
  refine ⟨{ st with heap := h5 }, ?_, ?_, ?_⟩
  · rw [hlen0]
  · show (cellAt h5 st.heap.length).data = _
    rw [← hlen0, hdat5 h0.length, hc4r]
  · show (cellAt h5 st.heap.length).data.length = _
    rw [← hlen0, hdat5 h0.length, hc4r, List.length_append]

/-- Witness for claim C7 at a concrete heap of two sequences. -/
theorem C7_concat_witness :
    ∃ st2 : State,
      evalAddVals (mkSeqV 0) (mkSeqV 1)
          ⟨[⟨[1, 2], 5, 0, true, 0⟩, ⟨[3], 5, 0, true, 0⟩], [], []⟩ =
        .ok (mkSeqV 2, st2) ∧
      (cellAt st2.heap 2).data = [1, 2] ++ [3] ∧
      (cellAt st2.heap 2).data.length = ([1, 2] : List Int).length + ([3] : List Int).length := by
  have h := C7_concat ⟨[⟨[1, 2], 5, 0, true, 0⟩, ⟨[3], 5, 0, true, 0⟩], [], []⟩ 0 1
    (by decide) (by decide) (by decide) (by decide)
  exact h

/-! Claim C5: flat precedence, left associativity, and expression
terminators.  We render an arbitrary chain of infix operators (with the
one-letter variable a as every operand, and for the index operator its
closing bracket) into source characters and run the embedded parseExpr on
it. -/

/-- One constructor per infix operator of isInfixOperator. -/
inductive OpK where
  | addK
  | subK
  | mulK
  | divK
  | lessK
  | eqK
  | andK
  | orK
  | idxK
  deriving DecidableEq, Repr

/-- The AST node parseExpr builds for each infix operator. -/
def opNode : OpK → Expr → Expr → Expr
  | .addK, l, r => .add l r
  | .subK, l, r => .sub l r
  | .mulK, l, r => .mul l r
  | .divK, l, r => .div l r
  | .lessK, l, r => .less l r
  | .eqK, l, r => .eq l r
  | .andK, l, r => .andE l r
  | .orK, l, r => .orE l r
  | .idxK, l, r => .index l r

/-- Source text of one operator-and-operand step of a chain, with the
variable a as the operand (and the required closing bracket for the index
operator). -/
def opChunk : OpK → List Char
  | .addK => [' ', '+', ' ', 'a']
  | .subK => [' ', '-', ' ', 'a']
  | .mulK => [' ', '*', ' ', 'a']
  | .divK => [' ', '/', ' ', 'a']
  | .lessK => [' ', '<', ' ', 'a']
  | .eqK => [' ', '=', '=', ' ', 'a']
  | .andK => [' ', '&', '&', ' ', 'a']
  | .orK => [' ', '|', '|', ' ', 'a']
  | .idxK => [' ', '[', ' ', 'a', ' ', ']']

/-- The characters following the first operand of a chain: the operator
steps, then a space and the terminating character. -/
def renderChain : List OpK → Char → List Char
  | [], t => [' ', t]
  | k :: ks, t => opChunk k ++ renderChain ks t

/-- The expression a flat left-associative parse of the chain builds. -/
def chainFold (ks : List OpK) : Expr :=
  ks.foldl (fun acc k => opNode k acc (.var ['a'])) (.var ['a'])

/-- A palette of possible terminating characters: the four legal
terminators and six other one-character symbols. -/
def termChoices : List Char := [';', ')', ']', ',', '=', '&', '|', '.', '%', '!']

/-- The terminator test of parseExpr. -/
def legalTerm (t : Char) : Bool := t = ';' || t = ')' || t = ']' || t = ','

theorem renderChain_head : ∀ (ks : List OpK) (t : Char),
    ∃ R, renderChain ks t = ' ' :: R
  | [], t => ⟨[t], rfl⟩
  | k :: ks, t => by cases k <;> exact ⟨_, rfl⟩

/-- The operator loop of parseExpr consumes a rendered chain: every infix
operator keeps extending the expression to the left, and the chain ends at
the terminating character — accepted and pushed back when it is one of the
four legal terminators, a syntax error otherwise. -/
theorem parseExprLoop_chain : ∀ (ks : List OpK) (f : Nat) (left : Expr) (t : Char)
    (L : Nat), t ∈ termChoices → ks.length + 1 ≤ f →
    parseExprLoop f left ⟨renderChain ks t, L⟩ =
      (if legalTerm t then
        .ok (ks.foldl (fun acc k => opNode k acc (.var ['a'])) left, ⟨[t], L⟩)
       else .error (.syntaxErr L))
  | [], f, left, t, L, ht, hf => by
    obtain ⟨m, rfl⟩ : ∃ m, f = m + 1 := ⟨f - 1, by omega⟩
    simp only [termChoices, List.mem_cons, List.not_mem_nil, or_false] at ht
    rcases ht with rfl | rfl | rfl | rfl | rfl | rfl | rfl | rfl | rfl | rfl <;> rfl
  | k :: ks, f, left, t, L, ht, hf => by
    obtain ⟨m2, rfl⟩ : ∃ m2, f = m2 + 1 + 1 :=
      ⟨f - 2, by simp only [List.length_cons] at hf; omega⟩
    obtain ⟨R, hR⟩ := renderChain_head ks t
    have ih := parseExprLoop_chain ks (m2 + 1) (opNode k left (.var ['a'])) t L
      (by assumption) (by simp only [List.length_cons] at hf; omega)
    rw [List.foldl_cons]
    cases k
    case addK =>
      have step : parseExprLoop (m2 + 1 + 1) left
          ⟨renderChain (.addK :: ks) t, L⟩ =
          parseExprLoop (m2 + 1) (.add left (.var ['a'])) ⟨renderChain ks t, L⟩ := by
        rw [show renderChain (OpK.addK :: ks) t =
          ' ' :: '+' :: ' ' :: 'a' :: renderChain ks t from rfl, hR]
        rfl
      rw [step]
      exact ih
    case subK =>
      have step : parseExprLoop (m2 + 1 + 1) left
          ⟨renderChain (.subK :: ks) t, L⟩ =
          parseExprLoop (m2 + 1) (.sub left (.var ['a'])) ⟨renderChain ks t, L⟩ := by
        rw [show renderChain (OpK.subK :: ks) t =
          ' ' :: '-' :: ' ' :: 'a' :: renderChain ks t from rfl, hR]
        rfl
      rw [step]
      exact ih
    case mulK =>
      have step : parseExprLoop (m2 + 1 + 1) left
          ⟨renderChain (.mulK :: ks) t, L⟩ =
          parseExprLoop (m2 + 1) (.mul left (.var ['a'])) ⟨renderChain ks t, L⟩ := by
        rw [show renderChain (OpK.mulK :: ks) t =
          ' ' :: '*' :: ' ' :: 'a' :: renderChain ks t from rfl, hR]
        rfl
      rw [step]
      exact ih
    case divK =>
      have step : parseExprLoop (m2 + 1 + 1) left
          ⟨renderChain (.divK :: ks) t, L⟩ =
          parseExprLoop (m2 + 1) (.div left (.var ['a'])) ⟨renderChain ks t, L⟩ := by
        rw [show renderChain (OpK.divK :: ks) t =
          ' ' :: '/' :: ' ' :: 'a' :: renderChain ks t from rfl, hR]
        rfl
      rw [step]
      exact ih
    case lessK =>
      have step : parseExprLoop (m2 + 1 + 1) left
          ⟨renderChain (.lessK :: ks) t, L⟩ =
          parseExprLoop (m2 + 1) (.less left (.var ['a'])) ⟨renderChain ks t, L⟩ := by
        rw [show renderChain (OpK.lessK :: ks) t =
          ' ' :: '<' :: ' ' :: 'a' :: renderChain ks t from rfl, hR]
        rfl
      rw [step]
      exact ih
    case eqK =>
      have step : parseExprLoop (m2 + 1 + 1) left
          ⟨renderChain (.eqK :: ks) t, L⟩ =
          parseExprLoop (m2 + 1) (.eq left (.var ['a'])) ⟨renderChain ks t, L⟩ := by
        rw [show renderChain (OpK.eqK :: ks) t =
          ' ' :: '=' :: '=' :: ' ' :: 'a' :: renderChain ks t from rfl, hR]
        rfl
      rw [step]
      exact ih
    case andK =>
      have step : parseExprLoop (m2 + 1 + 1) left
          ⟨renderChain (.andK :: ks) t, L⟩ =
          parseExprLoop (m2 + 1) (.andE left (.var ['a'])) ⟨renderChain ks t, L⟩ := by
        rw [show renderChain (OpK.andK :: ks) t =
          ' ' :: '&' :: '&' :: ' ' :: 'a' :: renderChain ks t from rfl, hR]
        rfl
      rw [step]
      exact ih
    case orK =>
      have step : parseExprLoop (m2 + 1 + 1) left
          ⟨renderChain (.orK :: ks) t, L⟩ =
          parseExprLoop (m2 + 1) (.orE left (.var ['a'])) ⟨renderChain ks t, L⟩ := by
        rw [show renderChain (OpK.orK :: ks) t =
          ' ' :: '|' :: '|' :: ' ' :: 'a' :: renderChain ks t from rfl, hR]
        rfl
      rw [step]
      exact ih
    case idxK =>
      have step : parseExprLoop (m2 + 1 + 1) left
          ⟨renderChain (.idxK :: ks) t, L⟩ =
          parseExprLoop (m2 + 1) (.index left (.var ['a'])) ⟨renderChain ks t, L⟩ := by
        rw [show renderChain (OpK.idxK :: ks) t =
          ' ' :: '[' :: ' ' :: 'a' :: ' ' :: ']' :: renderChain ks t from rfl, hR]
        rfl
      rw [step]
      exact ih

/-- Claim C5: every chain of the infix operators (including the index
operator with its closing bracket) parses at one shared precedence level
with left associativity — the parse of a rendered chain is the left fold of
the operator list; the expression ends at the first token that is not an
infix operator; that terminating token is accepted exactly when it is a
semicolon, closing parenthesis, closing bracket or comma — any other choice
from the palette is a syntax error — and it is pushed back for the caller
(it reappears at the head of the remaining stream); and concretely the
source a + b * c parses as (a + b) * c. -/
theorem C5_flat_precedence (ks : List OpK) (t : Char) (f L : Nat)
    (ht : t ∈ termChoices) (hf : ks.length + 2 ≤ f) :
    parseExpr f ['a'] ⟨renderChain ks t, L⟩ =
      (if legalTerm t then .ok (chainFold ks, ⟨[t], L⟩)
       else .error (.syntaxErr L)) ∧
    parseExpr 9 ['a'] ⟨" + b * c ;".toList, 1⟩ =
      .ok (.mul (.add (.var ['a']) (.var ['b'])) (.var ['c']), ⟨[';'], 1⟩) := by
  refine ⟨?_, rfl⟩
  obtain ⟨m2, rfl⟩ : ∃ m2, f = m2 + 1 + 1 := ⟨f - 2, by omega⟩
  have step : parseExpr (m2 + 1 + 1) ['a'] ⟨renderChain ks t, L⟩ =
      parseExprLoop (m2 + 1) (.var ['a']) ⟨renderChain ks t, L⟩ := rfl
  rw [step, parseExprLoop_chain ks (m2 + 1) (.var ['a']) t L ht (by omega)]
  rfl

/-- Witness for claim C5 on the chain a + a * a with the semicolon
terminator. -/
theorem C5_flat_precedence_witness :
    (parseExpr 4 ['a'] ⟨renderChain [OpK.addK, OpK.mulK] ';', 1⟩ =
      (if legalTerm ';' then .ok (chainFold [OpK.addK, OpK.mulK], ⟨[';'], 1⟩)
       else .error (.syntaxErr 1))) ∧
    parseExpr 9 ['a'] ⟨" + b * c ;".toList, 1⟩ =
      .ok (.mul (.add (.var ['a']) (.var ['b'])) (.var ['c']), ⟨[';'], 1⟩) :=
  C5_flat_precedence [OpK.addK, OpK.mulK] ';' 4 1 (by decide) (by decide)

end CLang
